import Mathlib

/-!
Shallow embedding of the apsis optimization core
(models/experiment.py, models/parameter_definition.py, optimizers/optimizer.py).

Numeric values (parameter values, results, timestamps) are modelled as exact
rationals.  Python exceptions are modelled explicitly: operations that can
raise return `Except` (for the experiment transition operations the error
payload is the state at the moment of the raise) or `Option` (for helpers
whose raise carries no state).
-/

namespace Apsis

/-- Modelled from the spec: candidate.py is not under src/.  Spec section 6
requires of the external Candidate collaborator a parameter-value mapping
readable by key, an optional numeric result, a boolean failed flag, a mutable
last-update timestamp, and an equality/identity sufficient for list membership
and removal. -/
structure Candidate where
  cand_id : Nat
  params : List (String × ℚ)
  result : Option ℚ
  failed : Bool
  last_update_time : ℚ
deriving DecidableEq

/-- Modelled from the spec: the identity of a Candidate used by the `in` and
`remove` operations on the partition lists.  Two Candidate records denote the
same Candidate object iff they carry the same id. -/
def candEq (a b : Candidate) : Bool := a.cand_id == b.cand_id

/-- parameter_definition.py lines 367-424: a numeric parameter definition given
by a lower and an upper bound, each optionally excluded; exclusion offsets the
effective bound inward by `epsilon` (default ten times machine epsilon). -/
structure MinMaxNumericParamDef where
  lower_bound : ℚ
  upper_bound : ℚ
  include_lower : Bool
  include_upper : Bool
  epsilon : ℚ
deriving DecidableEq

/-- parameter_definition.py line 418: `sys.float_info.epsilon * 10` for IEEE
doubles, i.e. ten times 2 ^ (-52). -/
def defaultEpsilon : ℚ := 10 / 2 ^ 52

/-- parameter_definition.py line 428/438: the effective lower bound. -/
def MinMaxNumericParamDef.modifed_lower (p : MinMaxNumericParamDef) : ℚ :=
  p.lower_bound + (if p.include_lower then 0 else p.epsilon)

/-- parameter_definition.py line 429/439: the effective upper bound. -/
def MinMaxNumericParamDef.modifed_upper (p : MinMaxNumericParamDef) : ℚ :=
  p.upper_bound - (if p.include_upper then 0 else p.epsilon)

/-- parameter_definition.py lines 426-434. -/
def MinMaxNumericParamDef.warp_in (p : MinMaxNumericParamDef)
    (unwarped_value : ℚ) : List ℚ :=
  [(unwarped_value - p.modifed_lower) / (p.modifed_upper - p.modifed_lower)]

/-- parameter_definition.py lines 436-443 (`warped_value[0]` is the head of the
singleton list). -/
def MinMaxNumericParamDef.warp_out (p : MinMaxNumericParamDef)
    (warped_value : List ℚ) : ℚ :=
  (warped_value.headD 0) * (p.modifed_upper - p.modifed_lower) + p.modifed_lower

/-- parameter_definition.py lines 449-460. -/
def MinMaxNumericParamDef.is_in_parameter_domain (p : MinMaxNumericParamDef)
    (value : ℚ) : Bool :=
  if !(decide (p.lower_bound < value) ||
        (decide (p.lower_bound ≤ value) && p.include_lower)) then false
  else if !(decide (p.upper_bound > value) ||
        (decide (p.upper_bound ≥ value) && p.include_upper)) then false
  else true

/-- The ParamDef variants an Experiment can hold; the claims exercise the
bounded-numeric variant (lines 367-460) and the nominal variant
(lines 153-222, whose domain test at lines 195-203 is list membership). -/
inductive ParamDef where
  | minMax (p : MinMaxNumericParamDef)
  | nominal (values : List ℚ)
deriving DecidableEq

/-- Dispatch of is_in_parameter_domain over the variants. -/
def ParamDef.is_in_parameter_domain : ParamDef → ℚ → Bool
  | .minMax p, v => p.is_in_parameter_domain v
  | .nominal vs, v => vs.contains v

/-- experiment.py lines 14-130: the fields of an Experiment the transition
operations touch (name, notes and id are descriptive only and omitted). -/
structure Experiment where
  parameter_definitions : List (String × ParamDef)
  minimization_problem : Bool
  candidates_pending : List Candidate
  candidates_working : List Candidate
  candidates_finished : List Candidate
  best_candidate : Option Candidate
  last_update_time : ℚ
deriving DecidableEq

/-- experiment.py lines 123-127: a freshly initialized Experiment has the three
partition lists empty and no best candidate. -/
def Experiment.init (pds : List (String × ParamDef)) (minp : Bool) (t : ℚ) :
    Experiment :=
  { parameter_definitions := pds
    minimization_problem := minp
    candidates_pending := []
    candidates_working := []
    candidates_finished := []
    best_candidate := none
    last_update_time := t }

/-- experiment.py line 416: `set(cand.params.keys()) ==
set(self.parameter_definitions.keys())`. -/
def keysMatch (cparams : List (String × ℚ)) (pds : List (String × ParamDef)) :
    Bool :=
  cparams.all (fun kv => pds.any (fun pd => pd.1 == kv.1)) &&
    pds.all (fun pd => cparams.any (fun kv => kv.1 == pd.1))

/-- experiment.py lines 398-425: `_check_candidate`.  Returns true iff the key
sets agree and every parameter value is in the domain of its definition
(the code raises ValueError where this returns false). -/
def Experiment.check_candidate (e : Experiment) (cand : Candidate) : Bool :=
  keysMatch cand.params e.parameter_definitions &&
    cand.params.all (fun kv =>
      match e.parameter_definitions.lookup kv.1 with
      | some pd => pd.is_in_parameter_domain kv.2
      | none => false)

/-- The compound `if candidate in l: l.remove(candidate)` appearing in each
transition operation: removes the first element equal (as a Candidate) to
`c`, and is the identity when no element is equal to `c`. -/
def removeCand : List Candidate → Candidate → List Candidate
  | [], _ => []
  | x :: xs, c => if candEq x c then xs else x :: removeCand xs c

/-- experiment.py lines 272-340: `better_cand`.  `none` models a Python None
argument; a `none` overall result models the ValueError raised at lines
316-319 when an argument fails `_check_candidate`. -/
def Experiment.better_cand (e : Experiment) :
    Option Candidate → Option Candidate → Option Bool
  | none, _ => some false
  | some _, none => some true
  | some ca, some cb =>
    if e.check_candidate ca then
      if e.check_candidate cb then
        if ca.result.isNone || ca.failed then some false
        else if cb.result.isNone || cb.failed then some true
        else if e.minimization_problem then
          some (decide (ca.result.getD 0 < cb.result.getD 0))
        else
          some (decide (ca.result.getD 0 > cb.result.getD 0))
      else none
    else none

/-- experiment.py lines 511-513: the `for c in self.candidates_finished` loop
of `_update_best`; `none` overall propagates a raise out of `better_cand`. -/
def Experiment.update_best_loop (e : Experiment) :
    Option Candidate → List Candidate → Option (Option Candidate)
  | best, [] => some best
  | best, c :: rest =>
    match e.better_cand (some c) best with
    | none => none
    | some r => e.update_best_loop (if r then some c else best) rest

/-- experiment.py lines 508-516: `_update_best` recomputes the best candidate
from scratch over candidates_finished, starting from None. -/
def Experiment.update_best (e : Experiment) : Option Experiment :=
  match e.update_best_loop none e.candidates_finished with
  | none => none
  | some best => some { e with best_candidate := best }

/-- experiment.py lines 165-199: `add_pending`.  An `Except.error` result
carries the state at the moment of the raise; validation comes first, so a
rejected candidate leaves the state unchanged. -/
def Experiment.add_pending (e : Experiment) (cand : Candidate) (t : ℚ) :
    Except Experiment Experiment :=
  if e.check_candidate cand then
    let e1 := { e with
      candidates_pending := removeCand e.candidates_pending cand
      candidates_working := removeCand e.candidates_working cand
      candidates_finished := removeCand e.candidates_finished cand }
    let e2 := { e1 with
      last_update_time := t
      candidates_pending :=
        e1.candidates_pending ++ [{ cand with last_update_time := t }] }
    match e2.update_best with
    | some e3 => .ok e3
    | none => .error e2
  else .error e

/-- experiment.py lines 201-233: `add_working`. -/
def Experiment.add_working (e : Experiment) (cand : Candidate) (t : ℚ) :
    Except Experiment Experiment :=
  if e.check_candidate cand then
    let e1 := { e with
      candidates_pending := removeCand e.candidates_pending cand
      candidates_working := removeCand e.candidates_working cand
      candidates_finished := removeCand e.candidates_finished cand }
    let e2 := { e1 with
      last_update_time := t
      candidates_working :=
        e1.candidates_working ++ [{ cand with last_update_time := t }] }
    match e2.update_best with
    | some e3 => .ok e3
    | none => .error e2
  else .error e

/-- experiment.py lines 132-163: `add_finished`. -/
def Experiment.add_finished (e : Experiment) (cand : Candidate) (t : ℚ) :
    Except Experiment Experiment :=
  if e.check_candidate cand then
    let e1 := { e with
      candidates_pending := removeCand e.candidates_pending cand
      candidates_working := removeCand e.candidates_working cand
      candidates_finished := removeCand e.candidates_finished cand }
    let e2 := { e1 with
      last_update_time := t
      candidates_finished :=
        e1.candidates_finished ++ [{ cand with last_update_time := t }] }
    match e2.update_best with
    | some e3 => .ok e3
    | none => .error e2
  else .error e

/-- experiment.py lines 235-270: `add_pausing`.  The source removes from
candidates_working twice (lines 255-256 and 259-260); the target partition is
candidates_pending. -/
def Experiment.add_pausing (e : Experiment) (cand : Candidate) (t : ℚ) :
    Except Experiment Experiment :=
  if e.check_candidate cand then
    let e1 := { e with
      candidates_working := removeCand e.candidates_working cand
      candidates_pending := removeCand e.candidates_pending cand }
    let e2 := { e1 with
      candidates_working := removeCand e1.candidates_working cand
      candidates_finished := removeCand e1.candidates_finished cand }
    let e3 := { e2 with
      last_update_time := t
      candidates_pending :=
        e2.candidates_pending ++ [{ cand with last_update_time := t }] }
    match e3.update_best with
    | some e4 => .ok e4
    | none => .error e3
  else .error e

/-- One call to one of the four transition operations, with the timestamp the
call would read from the clock. -/
inductive ExpOp where
  | pending (c : Candidate) (t : ℚ)
  | working (c : Candidate) (t : ℚ)
  | finished (c : Candidate) (t : ℚ)
  | pausing (c : Candidate) (t : ℚ)
deriving DecidableEq

/-- The candidate an operation is called with. -/
def ExpOp.cand : ExpOp → Candidate
  | .pending c _ => c
  | .working c _ => c
  | .finished c _ => c
  | .pausing c _ => c

/-- Dispatch of one operation call. -/
def applyOp (e : Experiment) : ExpOp → Except Experiment Experiment
  | .pending c t => e.add_pending c t
  | .working c t => e.add_working c t
  | .finished c t => e.add_finished c t
  | .pausing c t => e.add_pausing c t

/-- A sequence of operation calls, stopping at the first raise. -/
def applyOps (e : Experiment) : List ExpOp → Except Experiment Experiment
  | [] => .ok e
  | op :: ops =>
    match applyOp e op with
    | .ok e1 => applyOps e1 ops
    | .error e1 => .error e1

/-- All candidates stored in the experiment, in partition order. -/
def Experiment.allCands (e : Experiment) : List Candidate :=
  e.candidates_pending ++ e.candidates_working ++ e.candidates_finished

/-- How many stored candidates carry the id `i`. -/
def Experiment.idCount (e : Experiment) (i : Nat) : Nat :=
  e.allCands.countP (fun x => x.cand_id == i)

/-! ## QueueBackend (optimizers/optimizer.py lines 313-473)

The inbound queue holds Experiment snapshots or the sentinel string used by
`QueueBasedOptimizer.exit`; both queues are FIFO and modelled as lists whose
head is the oldest element.  The wrapped Optimizer is modelled as the oracle
`getNext` giving the return value of `get_next_candidates`; the calls the
backend makes to the wrapped Optimizer are recorded in traces. -/

/-- An element of the inbound queue: an Experiment snapshot or the sentinel
token `"exit"` put by QueueBasedOptimizer.exit (line 310). -/
inductive QItem where
  | exp (e : Experiment)
  | exitToken
deriving DecidableEq

/-- The mutable state of a QueueBackend, plus two traces of the calls it has
made to the wrapped Optimizer: `update_calls` records each argument passed to
`update` together with the outbound-queue content at the moment of the call,
and `gen_calls` records each `num_candidates` argument passed to
`get_next_candidates`. -/
structure BackendState where
  in_queue : List QItem
  out_queue : List Candidate
  exited : Bool
  experiment : Experiment
  min_candidates : Nat
  update_calls : List (Experiment × List Candidate)
  gen_calls : List Nat
deriving DecidableEq

/-- optimizer.py lines 424-433: the `while not self._in_queue.empty()` drain
loop.  Returns the value of `new_update` (the last genuine snapshot drained,
if any), whether the sentinel was seen (in which case the loop returned
immediately), and the remaining queue content. -/
def drainIn : List QItem → Option Experiment →
    Option Experiment × Bool × List QItem
  | [], nu => (nu, false, [])
  | .exitToken :: rest, _ => (none, true, rest)
  | .exp e :: rest, _ => drainIn rest (some e)

/-- optimizer.py lines 437-438: the `while not self._out_queue.empty()` loop
that discards every buffered candidate. -/
def clearOut : List Candidate → List Candidate
  | [] => []
  | _ :: rest => clearOut rest

/-- optimizer.py lines 410-444: `_check_update`.  Drains the inbound queue
keeping the last snapshot; on the sentinel sets `_exited` and returns; on a
genuine snapshot clears the outbound queue, then calls the wrapped
Optimizer.update with the snapshot (recorded in the trace together with the
outbound-queue content at that moment) and stores it. -/
def check_update (s : BackendState) : BackendState :=
  match drainIn s.in_queue none with
  | (_, true, rest) => { s with in_queue := rest, exited := true }
  | (none, false, rest) => { s with in_queue := rest }
  | (some e, false, rest) =>
    let cleared := clearOut s.out_queue
    { s with
      in_queue := rest
      out_queue := cleared
      experiment := e
      update_calls := s.update_calls ++ [(e, cleared)] }

/-- optimizer.py line 456: the expression `self._out_queue.qsize <
self._min_candidates`.  The parentheses after `qsize` are missing, so this
compares the bound method itself, not the queue size, against an int; under
CPython 2 mixed-type comparison rules a number is smaller than any
non-number object, so the expression is False whatever the queue holds. -/
def qsizeMethodLtMin (_s : BackendState) : Bool := false

/-- optimizer.py lines 446-466: `_check_generation`.  When the test at lines
455-456 passes, calls get_next_candidates with num_candidates =
`_min_candidates` (recorded in the trace); a None return leaves the outbound
queue unchanged, otherwise every returned candidate is enqueued. -/
def check_generation (getNext : Nat → Option (List Candidate))
    (s : BackendState) : BackendState :=
  if s.out_queue.isEmpty || qsizeMethodLtMin s then
    match getNext s.min_candidates with
    | none => { s with gen_calls := s.gen_calls ++ [s.min_candidates] }
    | some cs =>
      { s with
        gen_calls := s.gen_calls ++ [s.min_candidates]
        out_queue := s.out_queue ++ cs }
  else s

/-- One iteration of the run loop body (optimizer.py lines 403-406):
`_check_generation` then `_check_update`. -/
def tick (getNext : Nat → Option (List Candidate)) (s : BackendState) :
    BackendState :=
  check_update (check_generation getNext s)

/-- optimizer.py lines 393-408: the `while not self._exited` run loop,
bounded by a fuel of `n` iterations. -/
def runLoop (getNext : Nat → Option (List Candidate)) :
    Nat → BackendState → BackendState
  | 0, s => s
  | n + 1, s => if s.exited then s else runLoop getNext n (tick getNext s)

/-! ## Concrete instances used by witnesses and counterexamples -/

/-- A one-parameter space over the closed interval [0, 10]. -/
def demoDefs : List (String × ParamDef) :=
  [("x", ParamDef.minMax ⟨0, 10, true, true, defaultEpsilon⟩)]

/-- An empty experiment over `demoDefs`, minimizing. -/
def demoExp : Experiment := Experiment.init demoDefs true 0

/-- A valid candidate with result 5. -/
def demoCandA : Candidate := ⟨1, [("x", 3)], some 5, false, 0⟩

/-- A valid candidate with result 2. -/
def demoCandB : Candidate := ⟨2, [("x", 4)], some 2, false, 0⟩

/-- A valid candidate that failed and has no result. -/
def demoCandFailed : Candidate := ⟨3, [("x", 6)], none, true, 0⟩

/-- A candidate whose key set does not match `demoDefs`. -/
def demoCandBadKey : Candidate := ⟨4, [("y", 3)], some 1, false, 0⟩

/-- A bounded-numeric parameter with both bounds excluded whose width equals
exactly twice the default epsilon, so the epsilon-adjusted bounds coincide. -/
def cexParamDef : MinMaxNumericParamDef :=
  ⟨0, 20 / 2 ^ 52, false, false, defaultEpsilon⟩

/-- The example parameter of C5: bounds 0 and 10, lower included, upper
excluded, default epsilon. -/
def exampleParamDef : MinMaxNumericParamDef :=
  ⟨0, 10, true, false, defaultEpsilon⟩

/-- An experiment whose only finished candidate failed and has no result. -/
def wExpAllFailed : Experiment :=
  { Experiment.init demoDefs true 0 with
    candidates_finished := [demoCandFailed] }

/-- The same experiment after `_update_best`: the failed candidate is the
best one. -/
def wExpAllFailedBest : Experiment :=
  { wExpAllFailed with best_candidate := some demoCandFailed }

/-- The finished version of demoCandA, stamped at time 1. -/
def wFinishedCand : Candidate := ⟨1, [("x", 3)], some 5, false, 1⟩

/-- The experiment obtained from demoExp by `add_finished demoCandA 1`. -/
def wFinishedExp : Experiment :=
  { parameter_definitions := demoDefs
    minimization_problem := true
    candidates_pending := []
    candidates_working := []
    candidates_finished := [wFinishedCand]
    best_candidate := some wFinishedCand
    last_update_time := 1 }

/-! ## Helper lemmas -/

theorem check_candidate_congr {e1 e2 : Experiment}
    (hp : e1.parameter_definitions = e2.parameter_definitions) :
    e1.check_candidate = e2.check_candidate := by
  funext c
  unfold Experiment.check_candidate
  rw [hp]

theorem better_cand_congr {e1 e2 : Experiment}
    (hp : e1.parameter_definitions = e2.parameter_definitions)
    (hm : e1.minimization_problem = e2.minimization_problem) :
    e1.better_cand = e2.better_cand := by
  funext a b
  cases a with
  | none => rfl
  | some ca =>
    cases b with
    | none => rfl
    | some cb =>
      simp only [Experiment.better_cand, check_candidate_congr hp, hm]

/-- `better_cand` never declares a candidate strictly better than itself. -/
theorem better_cand_irrefl (e : Experiment) (a : Option Candidate) :
    e.better_cand a a ≠ some true := by
  cases a with
  | none => simp [Experiment.better_cand]
  | some x =>
    simp only [Experiment.better_cand]
    split_ifs <;> simp [lt_irrefl]

/-- `better_cand` is asymmetric on genuine candidates. -/
theorem better_cand_asymm (e : Experiment) (a b : Candidate)
    (h : e.better_cand (some a) (some b) = some true) :
    e.better_cand (some b) (some a) ≠ some true := by
  simp only [Experiment.better_cand] at h ⊢
  split_ifs at h ⊢ <;> simp_all <;> exact le_of_lt h

/-! ## Claims about better_cand and candidate validation -/

/-- C2: `better_cand(a, b)` returns False when `a` is None; True when `a` is
not None and `b` is None; for two genuine (and valid) candidates it returns
False when the result of `a` is None or `a` failed, True when `a` carries a
valid result while the result of `b` is None or `b` failed, and otherwise
decides by strict inequality of the results in the configured optimization
direction, so equal results give False (ties favor `b`). -/
theorem better_cand_spec (e : Experiment) (ca cb : Candidate) :
    (∀ b, e.better_cand none b = some false) ∧
    (e.better_cand (some ca) none = some true) ∧
    (e.check_candidate ca = true → e.check_candidate cb = true →
      (ca.result = none ∨ ca.failed = true) →
      e.better_cand (some ca) (some cb) = some false) ∧
    (∀ ra, e.check_candidate ca = true → e.check_candidate cb = true →
      ca.result = some ra → ca.failed = false →
      (cb.result = none ∨ cb.failed = true) →
      e.better_cand (some ca) (some cb) = some true) ∧
    (∀ ra rb, e.check_candidate ca = true → e.check_candidate cb = true →
      ca.result = some ra → ca.failed = false →
      cb.result = some rb → cb.failed = false →
      e.better_cand (some ca) (some cb) =
        some (if e.minimization_problem then decide (ra < rb)
              else decide (rb < ra))) ∧
    (∀ r, e.check_candidate ca = true → e.check_candidate cb = true →
      ca.result = some r → ca.failed = false →
      cb.result = some r → cb.failed = false →
      e.better_cand (some ca) (some cb) = some false) := by
  refine ⟨fun b => rfl, rfl, ?_, ?_, ?_, ?_⟩
  · intro hca hcb hbad
    rcases hbad with hr | hf
    · simp [Experiment.better_cand, hca, hcb, hr]
    · simp [Experiment.better_cand, hca, hcb, hf]
  · intro ra hca hcb hra hfa hbad
    rcases hbad with hr | hf
    · simp [Experiment.better_cand, hca, hcb, hra, hfa, hr]
    · simp [Experiment.better_cand, hca, hcb, hra, hfa, hf]
  · intro ra rb hca hcb hra hfa hrb hfb
    by_cases hm : e.minimization_problem = true
    · simp [Experiment.better_cand, hca, hcb, hra, hfa, hrb, hfb, hm]
    · simp only [Bool.not_eq_true] at hm
      simp [Experiment.better_cand, hca, hcb, hra, hfa, hrb, hfb, hm,
        gt_iff_lt]
  · intro r hca hcb hra hfa hrb hfb
    by_cases hm : e.minimization_problem = true
    · simp [Experiment.better_cand, hca, hcb, hra, hfa, hrb, hfb, hm,
        lt_irrefl]
    · simp only [Bool.not_eq_true] at hm
      simp [Experiment.better_cand, hca, hcb, hra, hfa, hrb, hfb, hm,
        lt_irrefl]

/-- Witness for C2: a failed, resultless candidate is not better than a valid
one. -/
theorem better_cand_spec_witness :
    demoExp.better_cand (some demoCandFailed) (some demoCandB) = some false :=
  (better_cand_spec demoExp demoCandFailed demoCandB).2.2.1
    (by decide) (by decide) (Or.inl (by decide))

/-- C9: a candidate whose key set does not match the parameter definitions, or
with a value outside the domain of its ParamDef, is rejected by all four
transition operations; the error carries the state at the moment of the raise,
which is the unmodified input state (partitions, best_candidate and
last_update_time all unchanged), because `_check_candidate` runs before any
mutation. -/
theorem invalid_candidate_rejected (e : Experiment) (c : Candidate) (t : ℚ)
    (h : e.check_candidate c = false) :
    e.add_pending c t = .error e ∧
    e.add_working c t = .error e ∧
    e.add_finished c t = .error e ∧
    e.add_pausing c t = .error e := by
  refine ⟨?_, ?_, ?_, ?_⟩ <;>
    simp [Experiment.add_pending, Experiment.add_working,
      Experiment.add_finished, Experiment.add_pausing, h]

/-- Witness for C9 at a concrete candidate with a mismatched key set. -/
theorem invalid_candidate_rejected_witness :
    demoExp.add_pending demoCandBadKey 1 = .error demoExp :=
  (invalid_candidate_rejected demoExp demoCandBadKey 1 (by decide)).1

/-! ## Claims about the warp maps of MinMaxNumericParamDef -/

/-- Counterexample for C4: for this parameter the lower bound is strictly
below the upper bound and 5 / 2 ^ 52 is in the parameter domain, yet
`warp_out (warp_in x)` is not `x`: the epsilon-adjusted bounds coincide, so
`warp_in` divides by zero (a ZeroDivisionError in the source; the total
rational division of the model returns 0, and the round trip lands on the
shared adjusted bound instead of on `x`). -/
theorem minmax_warp_roundtrip_cex :
    cexParamDef.lower_bound < cexParamDef.upper_bound ∧
    cexParamDef.is_in_parameter_domain (5 / 2 ^ 52) = true ∧
    cexParamDef.warp_out (cexParamDef.warp_in (5 / 2 ^ 52)) ≠ 5 / 2 ^ 52 := by
  refine ⟨by norm_num [cexParamDef], ?_, ?_⟩
  · norm_num [cexParamDef, MinMaxNumericParamDef.is_in_parameter_domain]
  · norm_num [cexParamDef, MinMaxNumericParamDef.warp_in,
      MinMaxNumericParamDef.warp_out, MinMaxNumericParamDef.modifed_lower,
      MinMaxNumericParamDef.modifed_upper, defaultEpsilon]

/-- C4 (amended): for every MinMaxNumericParamDef whose lower bound is
strictly below its upper bound and whose epsilon-adjusted bounds remain
distinct (always the case with the default epsilon when the width exceeds
twice epsilon), `warp_out (warp_in x) = x` for every `x` in the parameter
domain and `warp_in (warp_out [y]) = [y]` for every `y` in `[0, 1]`,
exactly in rational arithmetic. -/
theorem minmax_warp_roundtrip (p : MinMaxNumericParamDef) (x y : ℚ)
    (_hlu : p.lower_bound < p.upper_bound)
    (hml : p.modifed_lower ≠ p.modifed_upper)
    (_hx : p.is_in_parameter_domain x = true)
    (_hy0 : 0 ≤ y) (_hy1 : y ≤ 1) :
    p.warp_out (p.warp_in x) = x ∧ p.warp_in (p.warp_out [y]) = [y] := by
  have hd : p.modifed_upper - p.modifed_lower ≠ 0 :=
    sub_ne_zero.mpr (Ne.symm hml)
  constructor
  · simp only [MinMaxNumericParamDef.warp_in, MinMaxNumericParamDef.warp_out,
      List.headD]
    rw [div_mul_cancel₀ _ hd]
    ring
  · simp only [MinMaxNumericParamDef.warp_in, MinMaxNumericParamDef.warp_out,
      List.headD]
    rw [add_sub_cancel_right, mul_div_cancel_right₀ _ hd]

/-- Witness for C4 (amended) on the closed interval [0, 10] at x = 3 and
y = 1 / 2. -/
theorem minmax_warp_roundtrip_witness :
    (MinMaxNumericParamDef.mk 0 10 true true defaultEpsilon).warp_out
        ((MinMaxNumericParamDef.mk 0 10 true true defaultEpsilon).warp_in 3) =
      3 ∧
    (MinMaxNumericParamDef.mk 0 10 true true defaultEpsilon).warp_in
        ((MinMaxNumericParamDef.mk 0 10 true true defaultEpsilon).warp_out
          [1 / 2]) =
      [1 / 2] :=
  minmax_warp_roundtrip _ 3 (1 / 2) (by norm_num)
    (by norm_num [MinMaxNumericParamDef.modifed_lower,
      MinMaxNumericParamDef.modifed_upper])
    (by decide) (by norm_num) (by norm_num)

/-- Counterexample for C5: `warp_in 10` does not fall strictly below 1.  The
upper exclusion moves the effective upper bound inward to 10 - epsilon, so 10
(which lies outside the domain) warps to 10 / (10 - epsilon), strictly above
1. -/
theorem warp_in_upper_exclusion_cex :
    ¬ (exampleParamDef.warp_in 10).headD 0 < 1 := by
  norm_num [exampleParamDef, MinMaxNumericParamDef.warp_in,
    MinMaxNumericParamDef.modifed_lower, MinMaxNumericParamDef.modifed_upper,
    defaultEpsilon]

/-- C5 (amended): for MinMaxNumericParamDef(0, 10, include_lower = True,
include_upper = False) with the default epsilon, `warp_in 10` returns the
single coordinate 2 ^ 52 / (2 ^ 52 - 1), strictly above 1 (10 itself is
outside the parameter domain), and `warp_out [1]` returns 10 - epsilon,
strictly less than 10. -/
theorem warp_bounds_example :
    exampleParamDef.warp_in 10 = [2 ^ 52 / (2 ^ 52 - 1)] ∧
    (1 : ℚ) < 2 ^ 52 / (2 ^ 52 - 1) ∧
    exampleParamDef.warp_out [1] = 10 - defaultEpsilon ∧
    exampleParamDef.warp_out [1] < 10 ∧
    exampleParamDef.is_in_parameter_domain 10 = false := by
  refine ⟨?_, by norm_num, ?_, ?_, ?_⟩ <;>
    norm_num [exampleParamDef, MinMaxNumericParamDef.warp_in,
      MinMaxNumericParamDef.warp_out, MinMaxNumericParamDef.modifed_lower,
      MinMaxNumericParamDef.modifed_upper,
      MinMaxNumericParamDef.is_in_parameter_domain, defaultEpsilon]

/-! ## Claims about the QueueBackend -/

theorem clearOut_eq_nil (q : List Candidate) : clearOut q = [] := by
  induction q with
  | nil => rfl
  | cons x rest ih => simpa [clearOut] using ih

/-- Draining a sentinel-free queue that ends with a snapshot keeps exactly the
last snapshot and empties the queue. -/
theorem drainIn_no_exit (q : List QItem) (e : Experiment)
    (acc : Option Experiment) (h : QItem.exitToken ∉ q) :
    drainIn (q ++ [QItem.exp e]) acc = (some e, false, []) := by
  induction q generalizing acc with
  | nil => rfl
  | cons x rest ih =>
    cases x with
    | exp e1 =>
      simpa [drainIn] using ih (some e1) (fun hm => h (List.mem_cons_of_mem _ hm))
    | exitToken => exact absurd (List.mem_cons_self _ _) h

/-- If the sentinel is in the queue, the drain loop reports it. -/
theorem drainIn_exit (q : List QItem) (acc : Option Experiment)
    (h : QItem.exitToken ∈ q) : (drainIn q acc).2.1 = true := by
  induction q generalizing acc with
  | nil => cases h
  | cons x rest ih =>
    cases x with
    | exp e1 =>
      exact ih (some e1) ((List.mem_cons.mp h).resolve_left (by simp))
    | exitToken => rfl

/-- C6: when the inbound queue holds at least one Experiment snapshot and no
sentinel, `_check_update` makes exactly one call to the wrapped Optimizer
update, passing the last-enqueued snapshot (earlier snapshots of the batch are
dropped and never passed on), with the outbound queue already empty at the
moment of the call; the snapshot is stored as the held experiment. -/
theorem coalescing (s : BackendState) (items : List QItem)
    (elast : Experiment)
    (hq : s.in_queue = items ++ [QItem.exp elast])
    (hnx : QItem.exitToken ∉ s.in_queue) :
    check_update s =
      { s with
        in_queue := []
        out_queue := []
        experiment := elast
        update_calls := s.update_calls ++ [(elast, [])] } := by
  have hnx2 : QItem.exitToken ∉ items := fun hm => hnx (hq ▸ List.mem_append_left _ hm)
  unfold check_update
  rw [hq, drainIn_no_exit items elast none hnx2]
  simp [clearOut_eq_nil]

/-- Witness for C6: two snapshots in the inbound queue; only the second is
applied. -/
theorem coalescing_witness :
    check_update
        ⟨[QItem.exp demoExp, QItem.exp (Experiment.init [] false 1)],
          [demoCandA], false, demoExp, 5, [], []⟩ =
      ⟨[], [], false, Experiment.init [] false 1, 5,
        [(Experiment.init [] false 1, [])], []⟩ :=
  coalescing _ [QItem.exp demoExp] (Experiment.init [] false 1) rfl
    (by decide)

/-- C7: evaluation of `_check_generation` at the failing input.  With
min_candidates at its default 5 and a single candidate buffered (1 < 5, so
by its docstring and by the spec, regeneration should occur), the backend
neither calls get_next_candidates nor touches the outbound queue, because the
test at optimizer.py line 456 reads `self._out_queue.qsize <
self._min_candidates` without calling `qsize`; generation only ever happens
when the outbound queue is completely empty, as the second conjunct shows. -/
theorem qsize_bug_eval :
    check_generation (fun _ => some [demoCandA, demoCandB])
        ⟨[], [demoCandA], false, demoExp, 5, [], []⟩ =
      ⟨[], [demoCandA], false, demoExp, 5, [], []⟩ ∧
    check_generation (fun _ => some [demoCandA, demoCandB])
        ⟨[], [], false, demoExp, 5, [], []⟩ =
      ⟨[], [demoCandA, demoCandB], false, demoExp, 5, [], [5]⟩ ∧
    check_generation (fun _ => none)
        ⟨[], [], false, demoExp, 5, [], []⟩ =
      ⟨[], [], false, demoExp, 5, [], [5]⟩ := by
  refine ⟨rfl, rfl, rfl⟩

/-- C8: when the sentinel appears in the inbound queue, `_check_update` leaves
the drain loop as soon as it takes the sentinel out, goes to the Exited state
without calling the wrapped Optimizer update on any snapshot of the batch,
and from then on the run loop does nothing: no later tick runs and the
wrapped Optimizer is never invoked again (neither trace ever grows). -/
theorem exit_sentinel (getNext : Nat → Option (List Candidate))
    (s : BackendState) (h : QItem.exitToken ∈ s.in_queue) :
    (check_update s).exited = true ∧
    (check_update s).update_calls = s.update_calls ∧
    (check_update s).gen_calls = s.gen_calls ∧
    (∀ n, runLoop getNext n (check_update s) = check_update s) := by
  have hb : (drainIn s.in_queue none).2.1 = true := drainIn_exit _ none h
  have hcu : check_update s =
      { s with in_queue := (drainIn s.in_queue none).2.2, exited := true } := by
    unfold check_update
    rcases hd : drainIn s.in_queue none with ⟨nu, ex, rest⟩
    rw [hd] at hb
    simp only at hb
    subst hb
    cases nu <;> rfl
  refine ⟨by rw [hcu], by rw [hcu], by rw [hcu], fun n => ?_⟩
  cases n with
  | zero => rfl
  | succ m =>
    rw [hcu]
    simp [runLoop]

/-- Witness for C8: a queue holding a snapshot, the sentinel, then another
snapshot. -/
theorem exit_sentinel_witness :
    (check_update
        ⟨[QItem.exp demoExp, QItem.exitToken,
            QItem.exp (Experiment.init [] false 1)],
          [demoCandA], false, demoExp, 5, [], []⟩).exited = true :=
  (exit_sentinel (fun _ => none) _ (by decide)).1

/-! ## Helper lemmas about update_best -/

/-- Once the running best of the `_update_best` loop is a genuine candidate it
stays one. -/
theorem update_best_loop_some (e : Experiment) (l : List Candidate) :
    ∀ (b : Candidate) (r : Option Candidate),
      e.update_best_loop (some b) l = some r → ∃ c, r = some c := by
  induction l with
  | nil =>
    intro b r h
    simp only [Experiment.update_best_loop] at h
    exact ⟨b, (Option.some_inj.mp h).symm⟩
  | cons x rest ih =>
    intro b r h
    simp only [Experiment.update_best_loop] at h
    rcases hbc : e.better_cand (some x) (some b) with _ | r1
    · rw [hbc] at h; cases h
    · rw [hbc] at h
      cases r1 with
      | true => exact ih x r h
      | false => exact ih b r h

/-- The result of the `_update_best` loop is its starting accumulator or an
element of the scanned list. -/
theorem update_best_loop_mem (e : Experiment) (l : List Candidate) :
    ∀ (acc : Option Candidate) (r : Option Candidate),
      e.update_best_loop acc l = some r →
      ∀ c, r = some c → acc = some c ∨ c ∈ l := by
  induction l with
  | nil =>
    intro acc r h c hc
    simp only [Experiment.update_best_loop] at h
    subst hc
    exact Or.inl (Option.some_inj.mp h)
  | cons x rest ih =>
    intro acc r h c hc
    simp only [Experiment.update_best_loop] at h
    rcases hbc : e.better_cand (some x) acc with _ | r1
    · rw [hbc] at h; cases h
    · rw [hbc] at h
      rcases r1 with _ | _
      · rcases ih acc r h c hc with hl | hr
        · exact Or.inl hl
        · exact Or.inr (List.mem_cons_of_mem _ hr)
      · rcases ih (some x) r h c hc with hl | hr
        · exact Or.inr (Option.some_inj.mp hl ▸ List.mem_cons_self _ _)
        · exact Or.inr (List.mem_cons_of_mem _ hr)

/-- What a successful `_update_best` guarantees: the partitions and the
configuration are untouched, and the new best is None exactly when
candidates_finished is empty, otherwise one of its elements. -/
theorem update_best_spec (e e' : Experiment) (h : e.update_best = some e') :
    e'.candidates_pending = e.candidates_pending ∧
    e'.candidates_working = e.candidates_working ∧
    e'.candidates_finished = e.candidates_finished ∧
    e'.parameter_definitions = e.parameter_definitions ∧
    e'.minimization_problem = e.minimization_problem ∧
    e'.last_update_time = e.last_update_time ∧
    (e'.best_candidate = none ↔ e.candidates_finished = []) ∧
    (∀ b, e'.best_candidate = some b → b ∈ e.candidates_finished) ∧
    e.update_best_loop none e.candidates_finished = some e'.best_candidate := by
  unfold Experiment.update_best at h
  rcases hl : e.update_best_loop none e.candidates_finished with _ | best
  · rw [hl] at h; cases h
  · rw [hl] at h
    have he : e' = { e with best_candidate := best } := (Option.some_inj.mp h).symm
    subst he
    refine ⟨rfl, rfl, rfl, rfl, rfl, rfl, ?_, ?_, rfl⟩
    · constructor
      · intro hb
        by_contra hne
        rcases List.exists_cons_of_ne_nil hne with ⟨x, rest, hfin⟩
        rw [hfin] at hl
        simp only [Experiment.update_best_loop] at hl
        have hx : e.better_cand (some x) none = some true := rfl
        rw [hx] at hl
        simp only at hb
        rw [hb] at hl
        rcases update_best_loop_some e rest x none hl with ⟨c, hc⟩
        cases hc
      · intro hfin
        rw [hfin] at hl
        simp only [Experiment.update_best_loop] at hl
        exact (Option.some_inj.mp hl).symm
    · intro b hb
      simp only at hb
      rw [hb] at hl
      rcases update_best_loop_mem e e.candidates_finished none (some b) hl b
          rfl with hl2 | hr
      · cases hl2
      · exact hr

/-! ## Claims about best-candidate maintenance -/

/-- C10: everything is better than None, so whenever candidates_finished is
non-empty a successful `_update_best` installs some element of it as
best_candidate, even when every finished candidate failed or lacks a result;
best_candidate is None exactly when candidates_finished is empty. -/
theorem best_candidate_totality :
    (∀ (e : Experiment) (c : Candidate),
      e.better_cand (some c) none = some true) ∧
    (∀ (e e' : Experiment), e.update_best = some e' →
      (e'.best_candidate = none ↔ e.candidates_finished = []) ∧
      (∀ b, e'.best_candidate = some b → b ∈ e.candidates_finished)) := by
  refine ⟨fun e c => rfl, fun e e' h => ?_⟩
  have hs := update_best_spec e e' h
  exact ⟨hs.2.2.2.2.2.2.1, hs.2.2.2.2.2.2.2.1⟩

/-- Witness for C10: with a single failed, resultless finished candidate the
recomputed best is not None. -/
theorem best_candidate_totality_witness :
    wExpAllFailedBest.best_candidate = none ↔
      wExpAllFailed.candidates_finished = [] :=
  (best_candidate_totality.2 wExpAllFailed wExpAllFailedBest rfl).1

/-! ## Inversion lemmas for the transition operations -/

theorem add_pending_ok (e : Experiment) (c : Candidate) (t : ℚ)
    (e' : Experiment) (h : e.add_pending c t = .ok e') :
    e.check_candidate c = true ∧
    ({ e with
        candidates_pending := removeCand e.candidates_pending c ++
          [{ c with last_update_time := t }]
        candidates_working := removeCand e.candidates_working c
        candidates_finished := removeCand e.candidates_finished c
        last_update_time := t } : Experiment).update_best = some e' := by
  unfold Experiment.add_pending at h
  split at h
  · dsimp only at h
    split at h
    · rename_i e3 heq
      injection h with h2
      exact ⟨by assumption, h2 ▸ heq⟩
    · cases h
  · cases h

theorem add_working_ok (e : Experiment) (c : Candidate) (t : ℚ)
    (e' : Experiment) (h : e.add_working c t = .ok e') :
    e.check_candidate c = true ∧
    ({ e with
        candidates_pending := removeCand e.candidates_pending c
        candidates_working := removeCand e.candidates_working c ++
          [{ c with last_update_time := t }]
        candidates_finished := removeCand e.candidates_finished c
        last_update_time := t } : Experiment).update_best = some e' := by
  unfold Experiment.add_working at h
  split at h
  · dsimp only at h
    split at h
    · rename_i e3 heq
      injection h with h2
      exact ⟨by assumption, h2 ▸ heq⟩
    · cases h
  · cases h

theorem add_finished_ok (e : Experiment) (c : Candidate) (t : ℚ)
    (e' : Experiment) (h : e.add_finished c t = .ok e') :
    e.check_candidate c = true ∧
    ({ e with
        candidates_pending := removeCand e.candidates_pending c
        candidates_working := removeCand e.candidates_working c
        candidates_finished := removeCand e.candidates_finished c ++
          [{ c with last_update_time := t }]
        last_update_time := t } : Experiment).update_best = some e' := by
  unfold Experiment.add_finished at h
  split at h
  · dsimp only at h
    split at h
    · rename_i e3 heq
      injection h with h2
      exact ⟨by assumption, h2 ▸ heq⟩
    · cases h
  · cases h

theorem add_pausing_ok (e : Experiment) (c : Candidate) (t : ℚ)
    (e' : Experiment) (h : e.add_pausing c t = .ok e') :
    e.check_candidate c = true ∧
    ({ e with
        candidates_pending := removeCand e.candidates_pending c ++
          [{ c with last_update_time := t }]
        candidates_working := removeCand (removeCand e.candidates_working c) c
        candidates_finished := removeCand e.candidates_finished c
        last_update_time := t } : Experiment).update_best = some e' := by
  unfold Experiment.add_pausing at h
  split at h
  · dsimp only at h
    split at h
    · rename_i e3 heq
      injection h with h2
      exact ⟨by assumption, h2 ▸ heq⟩
    · cases h
  · cases h

/-! ## More helper lemmas for the best-candidate claims -/

theorem update_best_loop_congr {e1 e2 : Experiment}
    (hb : e1.better_cand = e2.better_cand) :
    ∀ (l : List Candidate) (acc : Option Candidate),
      e1.update_best_loop acc l = e2.update_best_loop acc l := by
  intro l
  induction l with
  | nil => intro acc; rfl
  | cons x rest ih =>
    intro acc
    simp only [Experiment.update_best_loop, hb]
    rcases hbc : e2.better_cand (some x) acc with _ | r
    · rfl
    · exact ih _

theorem update_best_loop_append (e : Experiment) (l1 l2 : List Candidate) :
    ∀ acc, e.update_best_loop acc (l1 ++ l2) =
      match e.update_best_loop acc l1 with
      | none => none
      | some b => e.update_best_loop b l2 := by
  induction l1 with
  | nil => intro acc; rfl
  | cons x rest ih =>
    intro acc
    simp only [List.cons_append, Experiment.update_best_loop]
    rcases hbc : e.better_cand (some x) acc with _ | r
    · rfl
    · exact ih _

theorem removeCand_eq_of_fresh (l : List Candidate) (c : Candidate)
    (h : ∀ x ∈ l, candEq x c = false) : removeCand l c = l := by
  induction l with
  | nil => rfl
  | cons x rest ih =>
    simp only [removeCand, h x (List.mem_cons_self _ _)]
    simp only [Bool.false_eq_true, if_false, List.cons.injEq, true_and]
    exact ih fun y hy => h y (List.mem_cons_of_mem _ hy)

/-- C3: after every successful transition operation, best_candidate is an
element of candidates_finished, or None when that list is empty; and when a
new finished candidate (one not already among the finished ones) is added to
an experiment whose cached best is consistent, the best candidate never gets
worse: the old best is never strictly better, under better_cand, than the new
one. -/
theorem best_candidate_invariant :
    (∀ (e : Experiment) (op : ExpOp) (e' : Experiment),
      applyOp e op = .ok e' →
      (e'.best_candidate = none → e'.candidates_finished = []) ∧
      (∀ b, e'.best_candidate = some b → b ∈ e'.candidates_finished)) ∧
    (∀ (e : Experiment) (c : Candidate) (t : ℚ) (e' : Experiment),
      e.update_best = some e →
      (∀ x ∈ e.candidates_finished, candEq x c = false) →
      e.add_finished c t = .ok e' →
      e.better_cand e.best_candidate e'.best_candidate ≠ some true) := by
  constructor
  · intro e op e' h
    have hex : ∃ e2 : Experiment, e2.update_best = some e' := by
      cases op with
      | pending c t => exact ⟨_, (add_pending_ok e c t e' h).2⟩
      | working c t => exact ⟨_, (add_working_ok e c t e' h).2⟩
      | finished c t => exact ⟨_, (add_finished_ok e c t e' h).2⟩
      | pausing c t => exact ⟨_, (add_pausing_ok e c t e' h).2⟩
    rcases hex with ⟨e2, hub⟩
    have hs := update_best_spec e2 e' hub
    have hfin : e'.candidates_finished = e2.candidates_finished := hs.2.2.1
    refine ⟨fun hb => ?_, fun b hb => ?_⟩
    · rw [hfin]
      exact (hs.2.2.2.2.2.2.1).mp hb
    · rw [hfin]
      exact hs.2.2.2.2.2.2.2.1 b hb
  · intro e c t e' hfix hfresh hadd
    rcases add_finished_ok e c t e' hadd with ⟨hchk, hub⟩
    have hs := update_best_spec _ e' hub
    have hloop2 := hs.2.2.2.2.2.2.2.2
    simp only at hloop2
    rw [removeCand_eq_of_fresh e.candidates_finished c hfresh] at hloop2
    have hcongr : ({ e with
        candidates_pending := removeCand e.candidates_pending c
        candidates_working := removeCand e.candidates_working c
        candidates_finished := e.candidates_finished ++
          [{ c with last_update_time := t }]
        last_update_time := t } : Experiment).better_cand = e.better_cand :=
      better_cand_congr rfl rfl
    rw [update_best_loop_congr hcongr] at hloop2
    rw [update_best_loop_append] at hloop2
    have hfixloop := (update_best_spec e e hfix).2.2.2.2.2.2.2.2
    rw [hfixloop] at hloop2
    simp only [Experiment.update_best_loop] at hloop2
    rcases hbc : e.better_cand (some { c with last_update_time := t })
        e.best_candidate with _ | r
    · rw [hbc] at hloop2; cases hloop2
    · rw [hbc] at hloop2
      have hbest : e'.best_candidate =
          if r then some { c with last_update_time := t }
          else e.best_candidate := (Option.some_inj.mp hloop2).symm
      cases r with
      | false =>
        rw [hbest]
        simp only [Bool.false_eq_true, if_false]
        exact better_cand_irrefl e e.best_candidate
      | true =>
        rw [hbest]
        simp only [if_true]
        rcases hb0 : e.best_candidate with _ | x
        · simp [Experiment.better_cand]
        · rw [hb0] at hbc
          exact better_cand_asymm e _ x hbc

/-- Witness for C3: finishing a fresh candidate on an empty consistent
experiment; the previous best (None) is not strictly better than the new
one. -/
theorem best_candidate_invariant_witness :
    demoExp.better_cand demoExp.best_candidate wFinishedExp.best_candidate ≠
      some true :=
  best_candidate_invariant.2 demoExp demoCandA 1 wFinishedExp rfl
    (by intro x hx; simp only [demoExp, Experiment.init] at hx; cases hx) rfl

/-! ## Counting lemmas for the partition-disjointness claim -/

theorem countP_removeCand_ne (l : List Candidate) (c : Candidate) (i : Nat)
    (h : ¬ c.cand_id = i) :
    (removeCand l c).countP (fun x => x.cand_id == i) =
      l.countP (fun x => x.cand_id == i) := by
  induction l with
  | nil => rfl
  | cons x rest ih =>
    simp only [removeCand]
    by_cases hx : candEq x c = true
    · rw [if_pos hx]
      simp only [candEq, beq_iff_eq] at hx
      have hpx : (x.cand_id == i) = false := by
        simp only [beq_eq_false_iff_ne, ne_eq, hx]
        exact h
      simp [List.countP_cons, hpx]
    · rw [if_neg hx]
      simp [List.countP_cons, ih]

theorem countP_removeCand_self (l : List Candidate) (c : Candidate)
    (h : l.countP (fun x => x.cand_id == c.cand_id) ≤ 1) :
    (removeCand l c).countP (fun x => x.cand_id == c.cand_id) = 0 := by
  induction l with
  | nil => rfl
  | cons x rest ih =>
    simp only [removeCand]
    by_cases hx : candEq x c = true
    · rw [if_pos hx]
      simp only [candEq, beq_iff_eq] at hx
      rw [List.countP_cons] at h
      simp only [hx, beq_self_eq_true, if_true] at h
      omega
    · rw [if_neg hx]
      have hpx : (x.cand_id == c.cand_id) = false := by
        rcases hb : x.cand_id == c.cand_id with _ | _
        · rfl
        · exact absurd hb hx
      rw [List.countP_cons, hpx] at h
      simp only [Bool.false_eq_true, if_false, Nat.add_zero] at h
      rw [List.countP_cons, hpx]
      simp only [Bool.false_eq_true, if_false, Nat.add_zero]
      exact ih h

/-- The count of an id over the three partitions, written additively. -/
theorem idCount_formula (e : Experiment) (i : Nat) :
    e.idCount i = e.candidates_pending.countP (fun x => x.cand_id == i) +
      e.candidates_working.countP (fun x => x.cand_id == i) +
      e.candidates_finished.countP (fun x => x.cand_id == i) := by
  simp only [Experiment.idCount, Experiment.allCands, List.countP_append,
    Nat.add_assoc]

theorem countP_append_singleton (l : List Candidate) (cnew : Candidate)
    (cid i : Nat) (hid : cnew.cand_id = cid) :
    (l ++ [cnew]).countP (fun x => x.cand_id == i) =
      l.countP (fun x => x.cand_id == i) + (if cid = i then 1 else 0) := by
  subst hid
  simp only [List.countP_append, List.countP_cons, List.countP_nil,
    Nat.zero_add, beq_iff_eq]

/-- One successful transition operation keeps every foreign id count and sets
the count of the id of the moved candidate to exactly 1. -/
theorem applyOp_idCount (e : Experiment) (op : ExpOp) (e' : Experiment)
    (h : applyOp e op = .ok e') (hinv : ∀ i, e.idCount i ≤ 1) :
    (∀ i, ¬ op.cand.cand_id = i → e'.idCount i = e.idCount i) ∧
    e'.idCount op.cand.cand_id = 1 := by
  cases op with
  | pending c t =>
    simp only [ExpOp.cand]
    obtain ⟨hchk, hub⟩ := add_pending_ok e c t e' h
    have hs := update_best_spec _ e' hub
    have hp : e'.candidates_pending = removeCand e.candidates_pending c ++
        [{ c with last_update_time := t }] := hs.1
    have hw : e'.candidates_working = removeCand e.candidates_working c :=
      hs.2.1
    have hf : e'.candidates_finished = removeCand e.candidates_finished c :=
      hs.2.2.1
    constructor
    · intro i hci
      rw [idCount_formula, idCount_formula, hp, hw, hf,
        countP_append_singleton _ { c with last_update_time := t } c.cand_id i rfl, if_neg hci,
        countP_removeCand_ne _ _ _ hci, countP_removeCand_ne _ _ _ hci,
        countP_removeCand_ne _ _ _ hci]
      omega
    · have he := hinv c.cand_id
      rw [idCount_formula] at he
      rw [idCount_formula, hp, hw, hf,
        countP_append_singleton _ { c with last_update_time := t } c.cand_id c.cand_id rfl, if_pos rfl,
        countP_removeCand_self _ _ (by omega),
        countP_removeCand_self _ _ (by omega),
        countP_removeCand_self _ _ (by omega)]
  | working c t =>
    simp only [ExpOp.cand]
    obtain ⟨hchk, hub⟩ := add_working_ok e c t e' h
    have hs := update_best_spec _ e' hub
    have hp : e'.candidates_pending = removeCand e.candidates_pending c :=
      hs.1
    have hw : e'.candidates_working = removeCand e.candidates_working c ++
        [{ c with last_update_time := t }] := hs.2.1
    have hf : e'.candidates_finished = removeCand e.candidates_finished c :=
      hs.2.2.1
    constructor
    · intro i hci
      rw [idCount_formula, idCount_formula, hp, hw, hf,
        countP_append_singleton _ { c with last_update_time := t } c.cand_id i rfl, if_neg hci,
        countP_removeCand_ne _ _ _ hci, countP_removeCand_ne _ _ _ hci,
        countP_removeCand_ne _ _ _ hci]
      omega
    · have he := hinv c.cand_id
      rw [idCount_formula] at he
      rw [idCount_formula, hp, hw, hf,
        countP_append_singleton _ { c with last_update_time := t } c.cand_id c.cand_id rfl, if_pos rfl,
        countP_removeCand_self _ _ (by omega),
        countP_removeCand_self _ _ (by omega),
        countP_removeCand_self _ _ (by omega)]
  | finished c t =>
    simp only [ExpOp.cand]
    obtain ⟨hchk, hub⟩ := add_finished_ok e c t e' h
    have hs := update_best_spec _ e' hub
    have hp : e'.candidates_pending = removeCand e.candidates_pending c :=
      hs.1
    have hw : e'.candidates_working = removeCand e.candidates_working c :=
      hs.2.1
    have hf : e'.candidates_finished = removeCand e.candidates_finished c ++
        [{ c with last_update_time := t }] := hs.2.2.1
    constructor
    · intro i hci
      rw [idCount_formula, idCount_formula, hp, hw, hf,
        countP_append_singleton _ { c with last_update_time := t } c.cand_id i rfl, if_neg hci,
        countP_removeCand_ne _ _ _ hci, countP_removeCand_ne _ _ _ hci,
        countP_removeCand_ne _ _ _ hci]
      omega
    · have he := hinv c.cand_id
      rw [idCount_formula] at he
      rw [idCount_formula, hp, hw, hf,
        countP_append_singleton _ { c with last_update_time := t } c.cand_id c.cand_id rfl, if_pos rfl,
        countP_removeCand_self _ _ (by omega),
        countP_removeCand_self _ _ (by omega),
        countP_removeCand_self _ _ (by omega)]
  | pausing c t =>
    simp only [ExpOp.cand]
    obtain ⟨hchk, hub⟩ := add_pausing_ok e c t e' h
    have hs := update_best_spec _ e' hub
    have hp : e'.candidates_pending = removeCand e.candidates_pending c ++
        [{ c with last_update_time := t }] := hs.1
    have hw : e'.candidates_working =
        removeCand (removeCand e.candidates_working c) c := hs.2.1
    have hf : e'.candidates_finished = removeCand e.candidates_finished c :=
      hs.2.2.1
    constructor
    · intro i hci
      rw [idCount_formula, idCount_formula, hp, hw, hf,
        countP_append_singleton _ { c with last_update_time := t } c.cand_id i rfl, if_neg hci,
        countP_removeCand_ne _ _ _ hci, countP_removeCand_ne _ _ _ hci,
        countP_removeCand_ne _ _ _ hci, countP_removeCand_ne _ _ _ hci]
      omega
    · have he := hinv c.cand_id
      rw [idCount_formula] at he
      have hw1 : (removeCand e.candidates_working c).countP
          (fun x => x.cand_id == c.cand_id) = 0 :=
        countP_removeCand_self _ _ (by omega)
      have hw2 : (removeCand (removeCand e.candidates_working c) c).countP
          (fun x => x.cand_id == c.cand_id) = 0 :=
        countP_removeCand_self _ _ (by omega)
      rw [idCount_formula, hp, hw, hf,
        countP_append_singleton _ { c with last_update_time := t } c.cand_id c.cand_id rfl, if_pos rfl,
        countP_removeCand_self _ _ (by omega), hw2,
        countP_removeCand_self _ _ (by omega)]

/-- Every id moved by some operation of a successful sequence counts exactly
once over the three partitions afterwards. -/
theorem applyOps_idCount (ops : List ExpOp) :
    ∀ (e e' : Experiment), applyOps e ops = .ok e' →
      (∀ i, e.idCount i ≤ 1) →
      (∀ i, e'.idCount i ≤ 1) ∧
      (∀ i, e.idCount i = 1 → e'.idCount i = 1) ∧
      (∀ op ∈ ops, e'.idCount op.cand.cand_id = 1) := by
  induction ops with
  | nil =>
    intro e e' h hinv
    simp only [applyOps] at h
    injection h with h2
    subst h2
    exact ⟨hinv, fun i hi => hi, fun op hop => absurd hop (List.not_mem_nil _)⟩
  | cons op ops ih =>
    intro e e' h hinv
    simp only [applyOps] at h
    rcases hstep : applyOp e op with e1 | e1
    · rw [hstep] at h; cases h
    · rw [hstep] at h
      have hop := applyOp_idCount e op e1 hstep hinv
      have hinv1 : ∀ i, e1.idCount i ≤ 1 := by
        intro i
        by_cases hci : op.cand.cand_id = i
        · subst hci; rw [hop.2]
        · rw [hop.1 i hci]; exact hinv i
      have ihh := ih e1 e' h hinv1
      refine ⟨ihh.1, fun i hi => ?_, fun op0 hop0 => ?_⟩
      · by_cases hci : op.cand.cand_id = i
        · subst hci; exact ihh.2.1 _ hop.2
        · exact ihh.2.1 i (by rw [hop.1 i hci]; exact hi)
      · rcases List.mem_cons.mp hop0 with heq0 | hmem
        · subst heq0; exact ihh.2.1 _ hop.2
        · exact ihh.2.2 op0 hmem

/-- C1: from an experiment with empty partitions, after any successful
sequence of transition operations, every candidate id that was ever passed to
an operation occurs exactly once over the concatenation of the three
partitions, so the candidate lies in exactly one partition, at most once
there, and in no other; moreover add_pausing places its candidate (with the
fresh timestamp) in candidates_pending. -/
theorem partition_disjointness (pds : List (String × ParamDef)) (minp : Bool)
    (t0 : ℚ) (ops : List ExpOp) (e' : Experiment)
    (h : applyOps (Experiment.init pds minp t0) ops = .ok e') :
    (∀ op ∈ ops, e'.idCount op.cand.cand_id = 1) ∧
    (∀ (e : Experiment) (c : Candidate) (t : ℚ) (e2 : Experiment),
      e.add_pausing c t = .ok e2 →
      { c with last_update_time := t } ∈ e2.candidates_pending) := by
  constructor
  · have h0 : ∀ i, (Experiment.init pds minp t0).idCount i ≤ 1 := by
      intro i
      simp [Experiment.idCount, Experiment.allCands, Experiment.init]
    exact (applyOps_idCount ops _ e' h h0).2.2
  · intro e c t e2 hpa
    obtain ⟨hchk, hub⟩ := add_pausing_ok e c t e2 hpa
    have hs := update_best_spec _ e2 hub
    have hp : e2.candidates_pending = removeCand e.candidates_pending c ++
        [{ c with last_update_time := t }] := hs.1
    rw [hp]
    exact List.mem_append_right _ (List.mem_singleton.mpr rfl)

/-- Witness for C1: one finished candidate from the empty experiment. -/
theorem partition_disjointness_witness : wFinishedExp.idCount 1 = 1 :=
  (partition_disjointness demoDefs true 0 [ExpOp.finished demoCandA 1]
      wFinishedExp rfl).1 _ (List.mem_singleton.mpr rfl)

end Apsis
